import Mathlib

/-!
Shallow embedding of the Tariff Rating & Consolidation Engine of the
`3pl-dash` repository, covering:

* `src/backend/app/services/tariff_cache.py` (lane caches, `find_lane`)
* `src/backend/app/services/rating_engine.py` (`rate_cwt_cached`,
  `rate_skid_spot_cached`, `find_best_carrier`)
* `src/backend/app/services/rating_pipeline.py` (`_compute_carrier_columns`,
  `_build_shipment_updates`, `_compute_consolidation_opportunities`,
  `run_vectorized_rerate`)

Modelling conventions:

* Python `Decimal` amounts and weights are modelled as `ℚ` (all arithmetic
  the engine performs on them — `+`, `*`, `max`, comparison, `ceil`,
  `quantize` — is exact rational arithmetic).
* `Decimal.quantize(Decimal("0.01"))` and Python `round(x, n)` both use
  round-half-to-even, modelled by `roundHalfEven`.
* Python `Optional` is `Option`; Python falsiness of strings/decimals is
  modelled explicitly at each use site.
* Python `dict` (insertion ordered) is an association list with `dictGet`
  lookup; `str.upper`/`str.strip` are `pyUpper`/`pyStrip` (ASCII case map,
  ASCII whitespace); `datetime.date` is a day ordinal `ℤ` with day 0 =
  1970-01-01 (a Thursday), so `date.weekday()` is `(n + 3) % 7`.
-/

namespace ThreePL

/-! ## Python-semantics helpers -/

/-- Round-half-to-even to an integer, the default rounding of Python's
`Decimal.quantize` and of Python's built-in `round`. -/
def roundHalfEven (q : ℚ) : ℤ :=
  let f := ⌊q⌋
  let r := q - (f : ℚ)
  if r < 1/2 then f
  else if 1/2 < r then f + 1
  else if f % 2 = 0 then f else f + 1

/-- `x.quantize(Decimal("0.01"))`: round to two decimal places, half-to-even. -/
def quantize2 (q : ℚ) : ℚ := (roundHalfEven (q * 100) : ℚ) / 100

/-- `Decimal(str(round(x, 4)))`: round to four decimal places, half-to-even. -/
def quantize4 (q : ℚ) : ℚ := (roundHalfEven (q * 10000) : ℚ) / 10000

/-- `FUEL_TAX_MARGIN_MULTIPLIER = Decimal("1.53")` from `rating_engine.py`. -/
def FUEL_TAX_MARGIN_MULTIPLIER : ℚ := 153 / 100

/-- Python string truthiness of an `Optional[str]`: `None` and `""` are falsy. -/
def pyTruthy (o : Option String) : Bool :=
  match o with
  | none => false
  | some s => decide (s ≠ "")

/-- Python f-string rendering of an `Optional[str]`: `None` prints as "None". -/
def pyShow (o : Option String) : String := o.getD "None"

/-- ASCII `str.upper` on one character. -/
def pyCharUpper (c : Char) : Char :=
  if 'a' ≤ c ∧ c ≤ 'z' then Char.ofNat (c.toNat - 32) else c

/-- `str.upper` (ASCII case map). -/
def pyUpper (s : String) : String := String.mk (s.data.map pyCharUpper)

/-- ASCII whitespace, the characters `str.strip` removes. -/
def pySpace (c : Char) : Bool := c = ' ' || c = '\t' || c = '\n' || c = '\r'

/-- `str.strip`: drop whitespace from both ends. -/
def pyStrip (s : String) : String :=
  String.mk (((s.data.dropWhile pySpace).reverse.dropWhile pySpace).reverse)

/-- `_normalize` from `rating_pipeline.py`:
`value.strip().upper() if value else ""`. -/
def pyNormalize (v : Option String) : String :=
  match v with
  | none => ""
  | some s => if s = "" then "" else pyUpper (pyStrip s)

/-- Python `dict` lookup (`d.get(k)`) on an association list. -/
def dictGet {α β : Type} [DecidableEq α] (k : α) : List (α × β) → Option β
  | [] => none
  | (k2, v) :: rest => if k2 = k then some v else dictGet k rest

/-- Python `dict` assignment `d[k] = v` on an insertion-ordered association
list: an existing key keeps its position, a new key is appended. -/
def dictInsert {α β : Type} [DecidableEq α] (l : List (α × β)) (k : α) (v : β) :
    List (α × β) :=
  if (dictGet k l).isSome then
    l.map (fun p => if p.1 = k then (k, v) else p)
  else l ++ [(k, v)]

/-! ## Tariff cache data model (`tariff_cache.py`) -/

/-- `TariffType` from `models/tariff.py` (the two structure kinds). -/
inductive TariffType where
  | CWT
  | SKID_SPOT
deriving DecidableEq, Repr

/-- `CwtBreak` dataclass: weight range `[start, stop)` (`stop` embeds the
Python field `end`, a Lean keyword) and a rate per hundredweight. -/
structure CwtBreak where
  start : Option ℚ
  stop : Option ℚ
  rate_per_cwt : ℚ
deriving DecidableEq, Repr

/-- `TariffLaneCache` dataclass: minimum charge, CWT breaks, and the
`skid_breaks` dict `num_spots -> flat charge` as an association list. -/
structure TariffLaneCache where
  min_charge : ℚ
  cwt_breaks : List CwtBreak
  skid_breaks : List (ℤ × ℚ)
deriving DecidableEq, Repr

/-- `TariffCacheEntry` dataclass: the two destination indexes are dicts
keyed by normalized `(city, province)` and by normalized province. -/
structure TariffCacheEntry where
  id : String
  carrier_name : String
  origin_dc : String
  tariff_type : TariffType
  lanes_by_city : List ((String × String) × TariffLaneCache)
  lanes_by_province : List (String × TariffLaneCache)
deriving DecidableEq, Repr

/-- `TariffCacheEntry.find_lane`: city+province match first, then
province-only; a falsy (absent/empty) destination province never matches.
Key normalization is `x.upper().strip()`; a key that normalizes to the
empty string is falsy in Python and skips its lookup. -/
def TariffCacheEntry.find_lane (e : TariffCacheEntry)
    (dest_city dest_province : Option String) : Option TariffLaneCache :=
  if ¬ pyTruthy dest_province then none
  else
    let city_key : Option String :=
      match dest_city with
      | none => none
      | some c => if c = "" then none else some (pyStrip (pyUpper c))
    let prov_key : Option String :=
      match dest_province with
      | none => none
      | some p => if p = "" then none else some (pyStrip (pyUpper p))
    let cityHit : Option TariffLaneCache :=
      match city_key, prov_key with
      | some ck, some pk =>
          if ck ≠ "" ∧ pk ≠ "" then dictGet (ck, pk) e.lanes_by_city else none
      | _, _ => none
    match cityHit with
    | some lane => some lane
    | none =>
        match prov_key with
        | some pk => if pk ≠ "" then dictGet pk e.lanes_by_province else none
        | none => none

/-! ## Hundredweight rating (`rate_cwt_cached`) -/

/-- `br.start or Decimal("0")`: the effective start of a CWT break. -/
def cwtStartD (b : CwtBreak) : ℚ := b.start.getD 0

/-- The exact-match test of the selection loops: weight within
`[start, stop)`, an absent `stop` matching any weight above `start`. -/
def cwtMatches (w : ℚ) (b : CwtBreak) : Bool :=
  decide (cwtStartD b ≤ w) &&
    (match b.stop with
     | none => true
     | some e => decide (w < e))

/-- The second (fallback) loop of `rate_cwt_cached`, run over breaks sorted
by start weight: an exact range match returns immediately; otherwise every
break whose start is at most the weight is kept as the running fallback. -/
def cwtFallbackLoop (w : ℚ) : List CwtBreak → Option CwtBreak → Option CwtBreak
  | [], acc => acc
  | b :: rest, acc =>
      if cwtStartD b ≤ w then
        if cwtMatches w b then some b
        else cwtFallbackLoop w rest (some b)
      else cwtFallbackLoop w rest acc

/-- `sorted(lane_cache.cwt_breaks, key=lambda b: b.start or Decimal("0"))`. -/
def sortedByStart (bs : List CwtBreak) : List CwtBreak :=
  bs.mergeSort (fun a b => decide (cwtStartD a ≤ cwtStartD b))

/-- Break selection of `rate_cwt_cached`: first loop over the stored breaks
looking for an exact range match, then the sorted fallback loop. -/
def cwtSelectBreak (w : ℚ) (breaks : List CwtBreak) : Option CwtBreak :=
  match breaks.find? (cwtMatches w) with
  | some b => some b
  | none =>
      if breaks.isEmpty then none
      else cwtFallbackLoop w (sortedByStart breaks) none

/-- The charge computed for a selected break:
`linehaul = ceil(weight/100) * rate`, floored at the lane minimum, times the
1.53 multiplier, quantized to 2 decimals. -/
def cwtCharge (w : ℚ) (br : CwtBreak) (lane : TariffLaneCache)
    (apply_multiplier : Bool) : ℚ :=
  let cwt : ℤ := ⌈w / 100⌉
  let linehaul : ℚ := (cwt : ℚ) * br.rate_per_cwt
  let base := max linehaul lane.min_charge
  quantize2 (if apply_multiplier then base * FUEL_TAX_MARGIN_MULTIPLIER else base)

/-- `rate_cwt_cached` from `rating_engine.py`. A falsy (`None` or zero) or
non-positive billable weight rates as `none`. -/
def rate_cwt_cached (billable_weight : Option ℚ) (lane : TariffLaneCache)
    (apply_multiplier : Bool := true) : Option ℚ :=
  match billable_weight with
  | none => none
  | some w =>
      if w ≤ 0 then none
      else (cwtSelectBreak w lane.cwt_breaks).map fun br =>
        cwtCharge w br lane apply_multiplier

/-! ## Skid/spot rating (`rate_skid_spot_cached`) -/

/-- `max(1, int((pallets or 1).to_integral_value(ROUND_CEILING)))`:
a falsy (absent or zero) pallet count defaults to 1. -/
def skidSpots (pallets_value : Option ℚ) : ℤ :=
  let pallets : ℚ :=
    match pallets_value with
    | none => 1
    | some p => if p = 0 then 1 else p
  max 1 ⌈pallets⌉

/-- `max(lane_cache.skid_breaks.keys())` (callers guard non-emptiness). -/
def skidMaxKey (l : List (ℤ × ℚ)) : ℤ :=
  match l.map Prod.fst with
  | [] => 0
  | k :: ks => ks.foldl max k

/-- `rate_skid_spot_cached` from `rating_engine.py`: weight cap of 2000 lb
per spot (the falsy weight `0` skips the cap check), spot count clamped to
the largest defined spot tier. -/
def rate_skid_spot_cached (pallets_value weight_value : Option ℚ)
    (lane : TariffLaneCache) (apply_multiplier : Bool := true) : Option ℚ :=
  let num_spots := skidSpots pallets_value
  let capped : Bool :=
    match weight_value with
    | none => false
    | some w => decide (w ≠ 0) && decide (2000 * (num_spots : ℚ) < w)
  if capped then none
  else if lane.skid_breaks.isEmpty then none
  else
    let max_spots := skidMaxKey lane.skid_breaks
    let spots_to_use := min num_spots max_spots
    match dictGet spots_to_use lane.skid_breaks with
    | none => none
    | some c =>
        some (quantize2 (if apply_multiplier then c * FUEL_TAX_MARGIN_MULTIPLIER else c))

/-! ## Best carrier (`find_best_carrier`) -/

/-- `find_best_carrier` from `rating_engine.py`:
`min(charges.items(), key=lambda x: x[1])`, which returns the first item
attaining the minimum in dict (insertion/cache-iteration) order. -/
def find_best_carrier (charges : List (String × ℚ)) : Option String × Option ℚ :=
  match charges with
  | [] => (none, none)
  | c :: rest =>
      let best := rest.foldl (fun acc x => if x.2 < acc.2 then x else acc) c
      (some best.1, some best.2)

/-! ## Rerate pipeline data model (`rating_pipeline.py`) -/

/-- `ShipmentRecord` dataclass; `ship_date` is a day ordinal
(0 = 1970-01-01, a Thursday). -/
structure ShipmentRecord where
  shipment_id : String
  origin_dc : String
  dest_city : Option String
  dest_province : Option String
  dest_region : Option String
  ship_date : Option ℤ
  pallets : Option ℚ
  weight : Option ℚ
  dim_weight : Option ℚ
  actual_charge : Option ℚ
  billable_weight : Option ℚ
deriving DecidableEq, Repr

/-- `ShipmentRecord.origin_key`: `_normalize(origin_dc) or "UNKNOWN"`. -/
def ShipmentRecord.origin_key (r : ShipmentRecord) : String :=
  let n := pyNormalize (some r.origin_dc)
  if n = "" then "UNKNOWN" else n

/-- `ShipmentRecord.dest_city_key`. -/
def ShipmentRecord.dest_city_key (r : ShipmentRecord) : String :=
  pyNormalize r.dest_city

/-- `ShipmentRecord.dest_province_key`. -/
def ShipmentRecord.dest_province_key (r : ShipmentRecord) : String :=
  pyNormalize r.dest_province

/-- `ShipmentRatingUpdate` dataclass (the per-shipment Rating Update). -/
structure ShipmentRatingUpdate where
  shipment_id : String
  expected_charge_per_carrier : List (String × ℚ)
  best_carrier : Option String
  best_charge : Option ℚ
  savings_vs_actual : ℚ
  tariff_match_status : String
  tariff_match_notes : Option String
deriving DecidableEq, Repr

/-- `ConsolidationOpportunity` dataclass. -/
structure ConsolidationOpportunity where
  origin_dc : String
  dest_city : String
  dest_province : String
  ship_date : ℤ
  shipment_count : ℕ
  actual_sum : ℚ
  individual_best_sum : ℚ
  consolidated_charge : ℚ
  incremental_savings : ℚ
  carrier : Option String
deriving DecidableEq, Repr

/-- `VectorizedRerateResult` dataclass. -/
structure VectorizedRerateResult where
  shipment_updates : List ShipmentRatingUpdate
  carrier_savings_total : ℚ
  carrier_best_total : ℚ
  rerated_count : ℕ
  consolidation_savings_total : ℚ
  consolidation_groups : List ConsolidationOpportunity
  consolidation_group_count : ℕ
deriving DecidableEq, Repr

/-! ## `_compute_carrier_columns` -/

/-- The charge one tariff cache entry contributes for one shipment record
inside `_compute_carrier_columns`: `NaN` (here `none`) when the origin does
not match or no lane is found, otherwise the rating algorithm selected by
the tariff's structure kind.  (The per-column `lane_lookup` memo dict is a
pure cache: `find_lane` factors through the normalized keys it is keyed by,
so it is dropped here.) -/
def columnCharge (entry : TariffCacheEntry) (rec : ShipmentRecord) : Option ℚ :=
  if rec.origin_key ≠ pyNormalize (some entry.origin_dc) then none
  else
    match entry.find_lane rec.dest_city rec.dest_province with
    | none => none
    | some lane =>
        match entry.tariff_type with
        | TariffType.CWT => rate_cwt_cached rec.billable_weight lane
        | TariffType.SKID_SPOT => rate_skid_spot_cached rec.pallets rec.weight lane

/-- One carrier column: dataframe column name, carrier name, and the
per-record charges (`none` embeds `NaN`). -/
structure CarrierColumn where
  column_id : String
  carrier_name : String
  charges : List (Option ℚ)
deriving DecidableEq, Repr

/-- `_compute_carrier_columns`: one column per tariff cache entry, in entry
order (`carrier_columns` and `column_to_carrier` share this order). -/
def computeCarrierColumns (records : List ShipmentRecord)
    (entries : List TariffCacheEntry) : List CarrierColumn :=
  entries.map fun e =>
    ⟨"carrier_" ++ e.id, e.carrier_name, records.map (columnCharge e)⟩

/-! ## `_build_shipment_updates` -/

/-- One shipment's dataframe row restricted to the carrier columns:
`(column name, carrier name, charge)` per column. -/
def rowOf (columns : List CarrierColumn) (idx : ℕ) :
    List (String × String × Option ℚ) :=
  columns.map fun c => (c.column_id, c.carrier_name, c.charges.getD idx none)

/-- The best-charge scan of `_build_shipment_updates`: skip `NaN`s, keep the
first strictly smaller value (so the first column attaining the minimum
wins); returns `(best column name, best charge float)`. -/
def bestOfRow (row : List (String × String × Option ℚ)) : Option (String × ℚ) :=
  row.foldl
    (fun acc t =>
      match t.2.2 with
      | none => acc
      | some v =>
          match acc with
          | none => some (t.1, v)
          | some b => if v < b.2 then some (t.1, v) else some b)
    none

/-- The `expected_charge_per_carrier` dict: iterate `column_to_carrier`
items in order, skip `NaN`s, `dict[carrier] = round(value, 2)`. -/
def expectedOfRow (row : List (String × String × Option ℚ)) : List (String × ℚ) :=
  row.foldl
    (fun acc t =>
      match t.2.2 with
      | none => acc
      | some v => dictInsert acc t.2.1 (quantize2 v))
    []

/-- The `ShipmentRatingUpdate` built for one record inside the loop of
`_build_shipment_updates` (callers guarantee `columns ≠ []`, so the
`NO_TARIFF` branch is unreachable there). -/
def updateForRecord (columns : List CarrierColumn) (idx : ℕ)
    (rec : ShipmentRecord) : ShipmentRatingUpdate :=
  let row := rowOf columns idx
  let expected := expectedOfRow row
  match bestOfRow row with
  | some b =>
      let bdec := quantize4 b.2
      let actual := rec.actual_charge.getD 0
      let diff := actual - bdec
      let savings := if 0 < actual ∧ 0 < diff then diff else 0
      ⟨rec.shipment_id, expected, dictGet b.1 (row.map fun t => (t.1, t.2.1)),
        some bdec, savings, "MATCHED", none⟩
  | none =>
      let status := if columns.isEmpty then "NO_TARIFF" else "NO_LANE"
      let notes :=
        if columns.isEmpty then some "No tariffs loaded for rating"
        else some ("No lane found for " ++ pyShow rec.dest_city ++ "/" ++
          pyShow rec.dest_province)
      ⟨rec.shipment_id, expected, none, none, 0, status, notes⟩

/-- Accumulator of `_build_shipment_updates`: the update list plus the three
run-level aggregates. -/
structure BuildAcc where
  updates : List ShipmentRatingUpdate
  carrier_savings_total : ℚ
  best_charge_total : ℚ
  rerated_count : ℕ
deriving DecidableEq, Repr

/-- One iteration of the loop of `_build_shipment_updates`: append the
record's update; when a best charge was found add it to the best-charge
total and bump the rerated counter, and add the (possibly zero) savings to
the savings total. -/
def buildStep (columns : List CarrierColumn) (acc : BuildAcc)
    (p : ℕ × ShipmentRecord) : BuildAcc :=
  let u := updateForRecord columns p.1 p.2
  { updates := acc.updates ++ [u]
    carrier_savings_total := acc.carrier_savings_total + u.savings_vs_actual
    best_charge_total := acc.best_charge_total + u.best_charge.getD 0
    rerated_count := acc.rerated_count + (if u.best_charge.isSome then 1 else 0) }

/-- `_build_shipment_updates`: early-return an empty result when there are
no carrier columns, otherwise fold the per-record step over
`enumerate(records)`. -/
def buildShipmentUpdates (columns : List CarrierColumn)
    (records : List ShipmentRecord) : BuildAcc :=
  if columns.isEmpty then ⟨[], 0, 0, 0⟩
  else records.enum.foldl (buildStep columns) ⟨[], 0, 0, 0⟩

/-! ## `_compute_consolidation_opportunities` -/

/-- `date.weekday()`: Monday = 0 … Sunday = 6 (day 0 is a Thursday). -/
def pyWeekday (n : ℤ) : ℤ := (n + 3) % 7

/-- `_is_mon_thu`: weekday 0–3. -/
def isMonThu (n : ℤ) : Bool := decide (pyWeekday n ≤ 3)

/-- The Monday starting the ISO week of a date.  Two dates share an
`isocalendar()` `(year, week)` pair exactly when they share this Monday, so
`_get_week_key`'s `(year, week)` tuple is embedded as this ordinal. -/
def weekMonday (n : ℤ) : ℤ := n - pyWeekday n

/-- The fourth component of a grouping key: either `_get_week_key`'s
`(year, week)` tuple (weekly mode) or the exact ship date (same-day mode). -/
inductive DateKey where
  | week (monday : ℤ)
  | day (d : ℤ)
deriving DecidableEq, Repr

/-- A consolidation group key
`(origin_key, dest_city_key, dest_province_key, week-or-day)`. -/
abbrev GroupKey := String × String × String × DateKey

/-- The grouping-filter head of the loop of
`_compute_consolidation_opportunities`: records without a ship date or a
destination province key are skipped; in weekly mode Fri–Sun records are
skipped and the key uses the ISO week, otherwise the exact ship date. -/
def recKey (weekly : Bool) (rec : ShipmentRecord) : Option GroupKey :=
  match rec.ship_date with
  | none => none
  | some d =>
      if rec.dest_province_key = "" then none
      else if weekly then
        if isMonThu d then
          some (rec.origin_key, rec.dest_city_key, rec.dest_province_key,
            DateKey.week (weekMonday d))
        else none
      else
        some (rec.origin_key, rec.dest_city_key, rec.dest_province_key,
          DateKey.day d)

/-- `by_key[key].append(idx)` on a `defaultdict(list)`: an existing key
keeps its position and appends the index, a new key is appended. -/
def addToBuckets (bs : List (GroupKey × List ℕ)) (k : GroupKey) (i : ℕ) :
    List (GroupKey × List ℕ) :=
  if bs.any (fun b => b.1 = k) then
    bs.map (fun b => if b.1 = k then (b.1, b.2 ++ [i]) else b)
  else bs ++ [(k, [i])]

/-- The grouping loop: bucket record indices by `recKey` in first-seen key
order. -/
def groupBuckets (weekly : Bool) (records : List ShipmentRecord) :
    List (GroupKey × List ℕ) :=
  records.enum.foldl
    (fun bs p =>
      match recKey weekly p.2 with
      | none => bs
      | some k => addToBuckets bs k p.1)
    []

/-- `entries_by_origin[origin_key]`: the cache entries whose normalized
origin equals the group's origin key, in entry order (a missing key yields
`[]`). -/
def entriesForOrigin (entries : List TariffCacheEntry) (origin_key : String) :
    List TariffCacheEntry :=
  entries.filter (fun e => pyNormalize (some e.origin_dc) = origin_key)

/-- `_best_consolidated_charge`: rate the combined load against every entry
for the group's origin, keeping the strictly smallest charge (first entry
wins ties); returns `(best charge, best carrier)`. -/
def bestConsolidatedCharge (origin_key : String)
    (dest_city dest_province : Option String)
    (billable_weight pallets weight : Option ℚ)
    (entries : List TariffCacheEntry) : Option ℚ × Option String :=
  (entriesForOrigin entries origin_key).foldl
    (fun acc entry =>
      match entry.find_lane dest_city dest_province with
      | none => acc
      | some lane =>
          let charge :=
            match entry.tariff_type with
            | TariffType.CWT => rate_cwt_cached billable_weight lane
            | TariffType.SKID_SPOT => rate_skid_spot_cached pallets weight lane
          match charge with
          | none => acc
          | some c =>
              match acc.1 with
              | none => (some c, some entry.carrier_name)
              | some b => if c < b then (some c, some entry.carrier_name) else acc)
    (none, none)

/-- Fallback shipment record for the (never reached) out-of-range index
case of `records[idx]`. -/
def dummyRecord : ShipmentRecord :=
  ⟨"", "", none, none, none, none, none, none, none, none, none⟩

/-- Fallback rating update for the (never reached) out-of-range index case
of `updates[idx]`. -/
def dummyUpdate : ShipmentRatingUpdate := ⟨"", [], none, none, 0, "", none⟩

/-- The per-group body of `_compute_consolidation_opportunities`: `none`
when the group is discarded (fewer than 2 members, no consolidated charge,
or non-positive incremental savings), otherwise the built opportunity.  In
weekly mode the representative ship date is
`first_rec_date + (3 - first_rec_date.weekday()) % 7`. -/
def opportunityOfBucket (records : List ShipmentRecord)
    (updates : List ShipmentRatingUpdate) (entries : List TariffCacheEntry)
    (weekly : Bool) (kb : GroupKey × List ℕ) : Option ConsolidationOpportunity :=
  let indices := kb.2
  if indices.length < 2 then none
  else
    let recOf := fun i => records.getD i dummyRecord
    let updOf := fun i => updates.getD i dummyUpdate
    let actual_sum := indices.foldl (fun s i => s + ((recOf i).actual_charge.getD 0)) 0
    let individual_best_sum := indices.foldl
      (fun s i =>
        match (updOf i).best_charge with
        | some b => s + b
        | none => s + ((recOf i).actual_charge.getD 0)) 0
    let pallets_total := indices.foldl (fun s i => s + ((recOf i).pallets.getD 0)) 0
    let weight_total := indices.foldl (fun s i => s + ((recOf i).weight.getD 0)) 0
    let dim_total := indices.foldl (fun s i => s + ((recOf i).dim_weight.getD 0)) 0
    let valid_records := indices.length
    if valid_records < 2 then none
    else
      let first := recOf (indices.headD 0)
      let billable : Option ℚ :=
        if weight_total ≠ 0 ∨ dim_total ≠ 0 then some (max weight_total dim_total)
        else none
      let bc := bestConsolidatedCharge kb.1.1 first.dest_city first.dest_province
        billable (some pallets_total) (some weight_total) entries
      match bc.1 with
      | none => none
      | some cc =>
          let incremental := individual_best_sum - cc
          if incremental ≤ 0 then none
          else
            let fd := first.ship_date.getD 0
            let isWeekKey : Bool :=
              match kb.1.2.2.2 with
              | DateKey.week _ => true
              | DateKey.day _ => false
            let sdate : ℤ :=
              if weekly && isWeekKey then
                fd + (3 - pyWeekday fd) % 7
              else
                match kb.1.2.2.2 with
                | DateKey.day d => d
                | DateKey.week _ => fd
            some ⟨first.origin_dc, first.dest_city.getD "",
              first.dest_province.getD "", sdate, indices.length, actual_sum,
              individual_best_sum, cc, incremental, bc.2⟩

/-- `_compute_consolidation_opportunities`: bucket, build and filter the
opportunities, total their savings and count them, then sort by incremental
savings descending (a stable sort, like Python's) and return the top 15. -/
def computeConsolidationOpportunities (records : List ShipmentRecord)
    (updates : List ShipmentRatingUpdate) (entries : List TariffCacheEntry)
    (weekly : Bool := true) : ℚ × List ConsolidationOpportunity × ℕ :=
  let buckets := groupBuckets weekly records
  let opps := buckets.filterMap (opportunityOfBucket records updates entries weekly)
  let total := opps.foldl (fun s o => s + o.incremental_savings) 0
  let sorted := opps.mergeSort
    (fun a b => decide (b.incremental_savings ≤ a.incremental_savings))
  (total, sorted.take 15, opps.length)

/-! ## `run_vectorized_rerate` -/

/-- `run_vectorized_rerate`, parameterized over the loaded shipment records
and the resolved tariff cache entries (the database session, audit-run
query and tariff-id filter live outside the core): an empty shipment set
short-circuits to an all-empty result, an empty tariff set raises
`ValueError("No tariffs available for re-rating")`. -/
def runVectorizedRerate (records : List ShipmentRecord)
    (entries : List TariffCacheEntry) : Except String VectorizedRerateResult :=
  if records.isEmpty then
    Except.ok ⟨[], 0, 0, 0, 0, [], 0⟩
  else if entries.isEmpty then
    Except.error "No tariffs available for re-rating"
  else
    let columns := computeCarrierColumns records entries
    let acc := buildShipmentUpdates columns records
    let cons := computeConsolidationOpportunities records acc.updates entries true
    Except.ok ⟨acc.updates, acc.carrier_savings_total, acc.best_charge_total,
      acc.rerated_count, cons.1, cons.2.1, cons.2.2⟩

end ThreePL

namespace ThreePL

/-! ## Concrete data used by witnesses and counterexamples -/

/-- The CWT lane of §8 of the spec: breaks `[0,500)→20/cwt`,
`[500,1000)→18/cwt`, `[1000,∞)→15/cwt`, minimum charge 45. -/
def exLaneCwt : TariffLaneCache :=
  ⟨45, [⟨some 0, some 500, 20⟩, ⟨some 500, some 1000, 18⟩, ⟨some 1000, none, 15⟩], []⟩

/-- The skid lane of §8 of the spec: spot breaks `{1:100, 2:180, 3:250, 4:300}`. -/
def exLaneSkid : TariffLaneCache :=
  ⟨0, [], [(1, 100), (2, 180), (3, 250), (4, 300)]⟩

/-- A shipment with actual charge 500 used by the C3 witness. -/
def c3Record : ShipmentRecord :=
  ⟨"S3", "DC1", none, some "ON", none, none, none, some 100, none, some 500, some 100⟩

/-- A single carrier column charging 100 used by the C3 witness. -/
def c3Columns : List CarrierColumn := [⟨"carrier_T3", "Acme", [some 100]⟩]

/-- A shipment whose actual charge is absent, used by C4. -/
def c4Record : ShipmentRecord :=
  ⟨"S4", "DC1", none, some "ON", none, none, none, some 100, none, none, some 100⟩

/-- A single carrier column charging 100, used by C4. -/
def c4Columns : List CarrierColumn := [⟨"carrier_T4", "Acme", [some 100]⟩]

/-- A one-break CWT lane, used by C5. -/
def c5Lane : TariffLaneCache := ⟨10, [⟨some 0, none, 10⟩], []⟩

/-- An entry whose only province lane is indexed under the empty
(whitespace-normalized) key, used by the C5 counterexample. -/
def c5WsEntry : TariffCacheEntry :=
  ⟨"T5", "Acme", "DC1", TariffType.CWT, [], [("", c5Lane)]⟩

/-- An entry with an exact city ("X", "ON") lane, used by the C5 witness. -/
def c5CityEntry : TariffCacheEntry :=
  ⟨"T5b", "Acme", "DC1", TariffType.CWT, [(("X", "ON"), c5Lane)], [("ON", c5Lane)]⟩

/-- A shipment whose destination province matches no lane, used by C7. -/
def c7Record : ShipmentRecord :=
  ⟨"S7", "DC1", none, some "QQ", none, none, none, some 100, none, some 50, some 100⟩

/-- A tariff cache entry with no lanes at all, used by C7. -/
def c7Entry : TariffCacheEntry :=
  ⟨"T7", "Acme", "DC1", TariffType.CWT, [], []⟩

/-- A Monday (day 4 = 1970-01-05) shipment, used by C8. -/
def c8RecM1 : ShipmentRecord :=
  ⟨"M1", "DC1", none, some "ON", none, some 4, none, some 100, none, some 500, some 100⟩

/-- A Tuesday (day 5) shipment in the same week, used by C8. -/
def c8RecM2 : ShipmentRecord :=
  ⟨"M2", "DC1", none, some "ON", none, some 5, none, some 100, none, some 500, some 100⟩

/-- A Friday (day 1 = 1970-01-02) shipment, used by C8. -/
def c8RecF : ShipmentRecord :=
  ⟨"F1", "DC1", none, some "ON", none, some 1, none, some 100, none, some 500, some 100⟩

/-- The three C8 shipments. -/
def c8Records : List ShipmentRecord := [c8RecM1, c8RecM2, c8RecF]

/-- The weekly bucket key the C8 Monday/Tuesday shipments share. -/
def c8Key : GroupKey := ("DC1", "", "ON", DateKey.week 4)

/-- A CWT lane with minimum charge 12 and a single 10-per-cwt break, used
by C9. -/
def c9Lane : TariffLaneCache := ⟨12, [⟨some 0, none, 10⟩], []⟩

/-- The tariff cache entry holding `c9Lane` for province "ON". -/
def c9Entry : TariffCacheEntry := ⟨"T9", "Acme", "DC1", TariffType.CWT, [], [("ON", c9Lane)]⟩

/-- A Thursday (day 0) shipment of 100 lb, used by C9. -/
def c9RecA : ShipmentRecord :=
  ⟨"A", "DC1", none, some "ON", none, some 0, none, some 100, none, some 1000, some 100⟩

/-- A second identical Thursday shipment, used by C9. -/
def c9RecB : ShipmentRecord :=
  ⟨"B", "DC1", none, some "ON", none, some 0, none, some 100, none, some 1000, some 100⟩

/-- The two C9 shipments. -/
def c9Records : List ShipmentRecord := [c9RecA, c9RecB]

/-- The Rating Updates of the C9 shipments (individual best 18.36 each). -/
def c9Updates : List ShipmentRatingUpdate :=
  (buildShipmentUpdates (computeCarrierColumns c9Records [c9Entry]) c9Records).updates

/-- The consolidation opportunity the C9 run produces: individual best sum
36.72, consolidated charge 30.60, incremental savings 6.12. -/
def c9Opp : ConsolidationOpportunity :=
  ⟨"DC1", "", "ON", 0, 2, 2000, 918/25, 153/5, 153/25, some "Acme"⟩

/-- A skid lane with tiers {1: 100, 2: 180}, used by C10. -/
def c10Lane : TariffLaneCache := ⟨0, [], [(1, 100), (2, 180)]⟩

/-- The skid tariff cache entry holding `c10Lane`, used by C10. -/
def c10Entry : TariffCacheEntry :=
  ⟨"T10", "Acme", "DC1", TariffType.SKID_SPOT, [], [("ON", c10Lane)]⟩

/-- A 1000-lb, 1-pallet shipment with no billed weight, used by C10. -/
def c10RecSmall : ShipmentRecord :=
  ⟨"S10", "DC1", none, some "ON", none, none, some 1, some 1000, none, some 500, some 1000⟩

/-- The same shipment with billed weight 99999 (far above the 2000-lb-per-
spot cap), used by C10. -/
def c10RecBig : ShipmentRecord :=
  ⟨"S10", "DC1", none, some "ON", none, none, some 1, some 1000, some 99999, some 500,
    some 99999⟩

end ThreePL

namespace ThreePL

/-! ## Shared helper lemmas -/

lemma roundHalfEven_intCast (n : ℤ) : roundHalfEven (n : ℚ) = n := by
  simp [roundHalfEven]

lemma quantize2_eq_of_mul_eq (q : ℚ) (n : ℤ) (h : q * 100 = (n : ℚ)) :
    quantize2 q = (n : ℚ) / 100 := by
  rw [quantize2, h, roundHalfEven_intCast]

lemma quantize4_eq_of_mul_eq (q : ℚ) (n : ℤ) (h : q * 10000 = (n : ℚ)) :
    quantize4 q = (n : ℚ) / 10000 := by
  rw [quantize4, h, roundHalfEven_intCast]

lemma sortedByStart_pairwise (bs : List CwtBreak) :
    List.Pairwise (fun a b => cwtStartD a ≤ cwtStartD b) (sortedByStart bs) := by
  have h := @List.sorted_mergeSort CwtBreak
    (fun a b => decide (cwtStartD a ≤ cwtStartD b))
    (fun a b c hab hbc => by
      simp only [decide_eq_true_eq] at *
      exact le_trans hab hbc)
    (fun a b => by
      simp only [Bool.or_eq_true, decide_eq_true_eq]
      exact le_total (cwtStartD a) (cwtStartD b))
    bs
  exact h.imp (fun hab => by simpa using hab)

lemma mem_sortedByStart {b : CwtBreak} {bs : List CwtBreak} :
    b ∈ sortedByStart bs ↔ b ∈ bs := List.mem_mergeSort

/-- Behaviour of the fallback loop of `rate_cwt_cached` on a list sorted by
start weight none of whose breaks matches exactly: either no break starts at
or below the weight and the accumulator is returned unchanged, or the loop
returns a break of maximal start among those starting at or below the
weight. -/
lemma fbLoop_spec (w : ℚ) : ∀ (l : List CwtBreak),
    List.Pairwise (fun a b => cwtStartD a ≤ cwtStartD b) l →
    (∀ b ∈ l, cwtMatches w b = false) → ∀ acc,
    (cwtFallbackLoop w l acc = acc ∧ ∀ b ∈ l, ¬ cwtStartD b ≤ w) ∨
    (∃ b, b ∈ l ∧ cwtStartD b ≤ w ∧ cwtFallbackLoop w l acc = some b ∧
      ∀ b2 ∈ l, cwtStartD b2 ≤ w → cwtStartD b2 ≤ cwtStartD b) := by
  intro l
  induction l with
  | nil => intro _ _ acc; left; exact ⟨rfl, by simp⟩
  | cons b rest ih =>
      intro hp hm acc
      rw [List.pairwise_cons] at hp
      have hmb : cwtMatches w b = false := hm b (List.mem_cons_self b rest)
      have hmrest : ∀ x ∈ rest, cwtMatches w x = false :=
        fun x hx => hm x (List.mem_cons_of_mem b hx)
      by_cases hb : cwtStartD b ≤ w
      · have hloop : cwtFallbackLoop w (b :: rest) acc =
            cwtFallbackLoop w rest (some b) := by
          simp [cwtFallbackLoop, hb, hmb]
        rcases ih hp.2 hmrest (some b) with ⟨heq, hnone⟩ | ⟨b2, hb2mem, hb2le, heq, hmax⟩
        · right
          refine ⟨b, List.mem_cons_self b rest, hb, ?_, ?_⟩
          · rw [hloop, heq]
          · intro b2 hb2 hle
            rcases List.mem_cons.mp hb2 with rfl | hb2
            · exact le_refl _
            · exact absurd hle (hnone b2 hb2)
        · right
          refine ⟨b2, List.mem_cons_of_mem b hb2mem, hb2le, ?_, ?_⟩
          · rw [hloop, heq]
          · intro b3 hb3 hle
            rcases List.mem_cons.mp hb3 with rfl | hb3
            · exact hp.1 b2 hb2mem
            · exact hmax b3 hb3 hle
      · have hloop : cwtFallbackLoop w (b :: rest) acc =
            cwtFallbackLoop w rest acc := by
          simp [cwtFallbackLoop, hb]
        rcases ih hp.2 hmrest acc with ⟨heq, hnone⟩ | ⟨b2, hb2mem, hb2le, heq, hmax⟩
        · left
          refine ⟨by rw [hloop, heq], ?_⟩
          intro b2 hb2
          rcases List.mem_cons.mp hb2 with rfl | hb2
          · exact hb
          · exact hnone b2 hb2
        · right
          refine ⟨b2, List.mem_cons_of_mem b hb2mem, hb2le, by rw [hloop, heq], ?_⟩
          intro b3 hb3 hle
          rcases List.mem_cons.mp hb3 with rfl | hb3
          · exact absurd hle hb
          · exact hmax b3 hb3 hle

/-! ## C1 — hundredweight (CWT) rating -/

/-- C1: `rate_cwt_cached` returns `none` for an absent or non-positive
billable weight; otherwise it charges
`round(max(ceil(weight/100) * breakRate, laneMinimumCharge) * 1.53, 2)` for
the selected break, where the selected break is the first whose
`[start, stop)` range contains the weight (an absent `stop` matching any
weight at or above `start`), falling back — when no range contains the
weight — to a break with the largest start at most the weight, and `none`
when no break starts at or below the weight.  On the §8 example lane,
weight 750 rates 220.32 and weight 50 rates 68.85. -/
theorem claim_C1_cwt_rating :
    (∀ lane : TariffLaneCache, rate_cwt_cached none lane = none) ∧
    (∀ (lane : TariffLaneCache) (w : ℚ), w ≤ 0 → rate_cwt_cached (some w) lane = none) ∧
    (∀ (w : ℚ) (br : CwtBreak) (lane : TariffLaneCache), cwtCharge w br lane true =
      quantize2 (max ((⌈w / 100⌉ : ℚ) * br.rate_per_cwt) lane.min_charge * (153/100))) ∧
    (∀ (lane : TariffLaneCache) (w : ℚ) (br : CwtBreak), 0 < w →
      lane.cwt_breaks.find? (cwtMatches w) = some br →
      rate_cwt_cached (some w) lane = some (cwtCharge w br lane true)) ∧
    (∀ (lane : TariffLaneCache) (w : ℚ), 0 < w →
      lane.cwt_breaks.find? (cwtMatches w) = none →
      (∃ b ∈ lane.cwt_breaks, cwtStartD b ≤ w) →
      ∃ br ∈ lane.cwt_breaks, cwtStartD br ≤ w ∧
        (∀ b2 ∈ lane.cwt_breaks, cwtStartD b2 ≤ w → cwtStartD b2 ≤ cwtStartD br) ∧
        rate_cwt_cached (some w) lane = some (cwtCharge w br lane true)) ∧
    (∀ (lane : TariffLaneCache) (w : ℚ), 0 < w →
      (∀ b ∈ lane.cwt_breaks, ¬ cwtStartD b ≤ w) →
      rate_cwt_cached (some w) lane = none) ∧
    rate_cwt_cached (some 750) exLaneCwt = some (22032/100) ∧
    rate_cwt_cached (some 50) exLaneCwt = some (6885/100) := by
  refine ⟨?_, ?_, ?_, ?_, ?_, ?_, ?_, ?_⟩
  · intro lane; rfl
  · intro lane w hw; simp [rate_cwt_cached, hw]
  · intro w br lane; rfl
  · intro lane w br hw hfind
    simp [rate_cwt_cached, cwtSelectBreak, hfind, not_le.mpr hw]
  · intro lane w hw hfind hex
    have hm : ∀ b ∈ lane.cwt_breaks, cwtMatches w b = false := by
      intro b hb
      have := List.find?_eq_none.mp hfind b hb
      simpa using this
    have hmsorted : ∀ b ∈ sortedByStart lane.cwt_breaks, cwtMatches w b = false :=
      fun b hb => hm b (mem_sortedByStart.mp hb)
    rcases fbLoop_spec w (sortedByStart lane.cwt_breaks) (sortedByStart_pairwise _)
        hmsorted none with ⟨_, hnone⟩ | ⟨br, hmem, hle, heq, hmax⟩
    · obtain ⟨b, hb, hble⟩ := hex
      exact absurd hble (hnone b (mem_sortedByStart.mpr hb))
    · refine ⟨br, mem_sortedByStart.mp hmem, hle, ?_, ?_⟩
      · intro b2 hb2 h2
        exact hmax b2 (mem_sortedByStart.mpr hb2) h2
      · have hne : lane.cwt_breaks.isEmpty = false := by
          obtain ⟨b, hb, _⟩ := hex
          cases h : lane.cwt_breaks with
          | nil => rw [h] at hb; simp at hb
          | cons x xs => rfl
        simp [rate_cwt_cached, cwtSelectBreak, hfind, hne, heq, not_le.mpr hw]
  · intro lane w hw hnone
    have hfind : lane.cwt_breaks.find? (cwtMatches w) = none := by
      apply List.find?_eq_none.mpr
      intro b hb
      simp only [cwtMatches, Bool.and_eq_true, decide_eq_true_eq]
      intro hcon
      exact hnone b hb hcon.1
    have hmsorted : ∀ b ∈ sortedByStart lane.cwt_breaks, cwtMatches w b = false := by
      intro b hb
      simp only [cwtMatches, Bool.and_eq_false_iff]
      left
      simpa using hnone b (mem_sortedByStart.mp hb)
    rcases fbLoop_spec w (sortedByStart lane.cwt_breaks) (sortedByStart_pairwise _)
        hmsorted none with ⟨heq, _⟩ | ⟨br, hmem, hle, _, _⟩
    · simp [rate_cwt_cached, cwtSelectBreak, hfind, heq, not_le.mpr hw, ite_self]
    · exact absurd hle (hnone br (mem_sortedByStart.mp hmem))
  · have hc : (⌈(15:ℚ)/2⌉ : ℤ) = 8 := by norm_num [Int.ceil_eq_iff]
    norm_num [rate_cwt_cached, exLaneCwt, cwtSelectBreak, cwtMatches, cwtStartD, cwtCharge,
      List.find?, FUEL_TAX_MARGIN_MULTIPLIER, hc, max_def]
    exact (quantize2_eq_of_mul_eq _ 22032 (by norm_num)).trans (by norm_num)
  · have hc : (⌈(1:ℚ)/2⌉ : ℤ) = 1 := by norm_num [Int.ceil_eq_iff]
    norm_num [rate_cwt_cached, exLaneCwt, cwtSelectBreak, cwtMatches, cwtStartD, cwtCharge,
      List.find?, FUEL_TAX_MARGIN_MULTIPLIER, hc, max_def]
    exact (quantize2_eq_of_mul_eq _ 6885 (by norm_num)).trans (by norm_num)

/-- C1 witness: the exact-match conjunct of `claim_C1_cwt_rating`
instantiated on the §8 example lane at weight 750, whose matching break is
`[500, 1000) → 18/cwt`. -/
theorem claim_C1_witness :
    rate_cwt_cached (some 750) exLaneCwt =
      some (cwtCharge 750 ⟨some 500, some 1000, 18⟩ exLaneCwt true) :=
  claim_C1_cwt_rating.2.2.2.1 exLaneCwt 750 ⟨some 500, some 1000, 18⟩ (by norm_num)
    (by norm_num [exLaneCwt, List.find?, cwtMatches, cwtStartD])

end ThreePL

namespace ThreePL

/-! ## C2 — skid/spot rating -/

lemma one_le_skidSpots (p : Option ℚ) : 1 ≤ skidSpots p := le_max_left _ _

/-- C2: `rate_skid_spot_cached` computes `spots = max(1, ceil(pallets or 1))`
(the definition of `skidSpots`); returns `none` when a weight is present and
exceeds `2000 * spots`; returns `none` when the lane has no spot breaks;
clamps the spot count to the lane's largest defined spot tier; returns
`none` when no flat charge is defined for the clamped spot count; and
otherwise charges `round(flatCharge * 1.53, 2)`.  On the §8 example breaks,
pallets 2.3 with weight 5000 rates 382.50, and pallets 6 clamps to 4 spots
and rates 459.00. -/
theorem claim_C2_skid_rating :
    (∀ (lane : TariffLaneCache) (p : Option ℚ) (w : ℚ),
      2000 * (skidSpots p : ℚ) < w →
      rate_skid_spot_cached p (some w) lane = none) ∧
    (∀ (lane : TariffLaneCache) (p wv : Option ℚ), lane.skid_breaks = [] →
      rate_skid_spot_cached p wv lane = none) ∧
    (∀ (lane : TariffLaneCache) (p wv : Option ℚ),
      (∀ w, wv = some w → w ≤ 2000 * (skidSpots p : ℚ)) →
      lane.skid_breaks ≠ [] →
      dictGet (min (skidSpots p) (skidMaxKey lane.skid_breaks)) lane.skid_breaks = none →
      rate_skid_spot_cached p wv lane = none) ∧
    (∀ (lane : TariffLaneCache) (p wv : Option ℚ) (c : ℚ),
      (∀ w, wv = some w → w ≤ 2000 * (skidSpots p : ℚ)) →
      lane.skid_breaks ≠ [] →
      dictGet (min (skidSpots p) (skidMaxKey lane.skid_breaks)) lane.skid_breaks = some c →
      rate_skid_spot_cached p wv lane = some (quantize2 (c * (153/100)))) ∧
    skidSpots (some (23/10)) = 3 ∧
    rate_skid_spot_cached (some (23/10)) (some 5000) exLaneSkid = some (38250/100) ∧
    skidSpots (some 6) = 6 ∧
    min (skidSpots (some 6)) (skidMaxKey exLaneSkid.skid_breaks) = 4 ∧
    rate_skid_spot_cached (some 6) none exLaneSkid = some (45900/100) := by
  have hcap : ∀ (p : Option ℚ) (w : ℚ), 2000 * (skidSpots p : ℚ) < w →
      (decide (w ≠ 0) && decide (2000 * (skidSpots p : ℚ) < w)) = true := by
    intro p w h
    have h1 : (1 : ℚ) ≤ (skidSpots p : ℚ) := by exact_mod_cast one_le_skidSpots p
    have hw : (0 : ℚ) < w := lt_of_lt_of_le (by linarith) (le_of_lt h)
    simp [ne_of_gt hw, h]
  refine ⟨?_, ?_, ?_, ?_, ?_, ?_, ?_, ?_, ?_⟩
  · intro lane p w h
    simp only [rate_skid_spot_cached, hcap p w h, if_true]
  · intro lane p wv h
    simp [rate_skid_spot_cached, h]
  · intro lane p wv hw hne hlook
    cases wv with
    | none => simp [rate_skid_spot_cached, hne, hlook]
    | some w =>
        have hle := hw w rfl
        simp [rate_skid_spot_cached, not_lt.mpr hle, hne, hlook]
  · intro lane p wv c hw hne hlook
    cases wv with
    | none => simp [rate_skid_spot_cached, hne, hlook, FUEL_TAX_MARGIN_MULTIPLIER]
    | some w =>
        have hle := hw w rfl
        simp [rate_skid_spot_cached, not_lt.mpr hle, hne, hlook, FUEL_TAX_MARGIN_MULTIPLIER]
  · have hc : (⌈(23:ℚ)/10⌉ : ℤ) = 3 := by norm_num [Int.ceil_eq_iff]
    norm_num [skidSpots, hc]
  · have hc : (⌈(23:ℚ)/10⌉ : ℤ) = 3 := by norm_num [Int.ceil_eq_iff]
    norm_num [rate_skid_spot_cached, exLaneSkid, skidSpots, skidMaxKey, dictGet,
      FUEL_TAX_MARGIN_MULTIPLIER, hc, min_def]
    exact (quantize2_eq_of_mul_eq _ 38250 (by norm_num)).trans (by norm_num)
  · norm_num [skidSpots]
  · norm_num [skidSpots, exLaneSkid, skidMaxKey, min_def]
  · norm_num [rate_skid_spot_cached, exLaneSkid, skidSpots, skidMaxKey, dictGet,
      FUEL_TAX_MARGIN_MULTIPLIER, min_def]
    exact (quantize2_eq_of_mul_eq _ 45900 (by norm_num)).trans (by norm_num)

/-- C2 witness: the flat-charge conjunct of `claim_C2_skid_rating`
instantiated on the §8 example breaks at pallets 2.3, weight 5000. -/
theorem claim_C2_witness :
    rate_skid_spot_cached (some (23/10)) (some 5000) exLaneSkid =
      some (quantize2 (250 * (153/100))) := by
  have hc : (⌈(23:ℚ)/10⌉ : ℤ) = 3 := by norm_num [Int.ceil_eq_iff]
  exact claim_C2_skid_rating.2.2.2.1 exLaneSkid (some (23/10)) (some 5000) 250
    (by intro w hw; injection hw with h; rw [← h]; norm_num [skidSpots, hc])
    (by simp [exLaneSkid])
    (by norm_num [exLaneSkid, dictGet, skidSpots, skidMaxKey, hc, min_def])

end ThreePL

namespace ThreePL

/-! ## C3 — best-carrier selection and per-shipment savings -/

/-- Python `min(items, key=...)` as the fold of `find_best_carrier`: the
result splits the scanned list as `pre ++ result :: post` where everything
in `pre` is strictly larger (so the first minimum wins) and the result is a
lower bound of the whole list. -/
lemma pyMinFold_spec (l : List (String × ℚ)) : ∀ (init : String × ℚ),
    ∃ pre post,
      init :: l = pre ++ (l.foldl (fun acc x => if x.2 < acc.2 then x else acc) init) :: post ∧
      (∀ q ∈ pre, (l.foldl (fun acc x => if x.2 < acc.2 then x else acc) init).2 < q.2) ∧
      (∀ q ∈ init :: l, (l.foldl (fun acc x => if x.2 < acc.2 then x else acc) init).2 ≤ q.2) := by
  induction l with
  | nil => intro init; exact ⟨[], [], rfl, by simp, by simp⟩
  | cons x xs ih =>
      intro init
      by_cases hx : x.2 < init.2
      · obtain ⟨pre, post, heq, hpre, hmin⟩ := ih x
        have hfold : (x :: xs).foldl (fun acc q => if q.2 < acc.2 then q else acc) init =
            xs.foldl (fun acc q => if q.2 < acc.2 then q else acc) x := by
          simp [List.foldl_cons, if_pos hx]
        refine ⟨init :: pre, post, ?_, ?_, ?_⟩
        · rw [hfold, List.cons_append]
          congr 1
        · intro q hq
          rw [hfold]
          rcases List.mem_cons.mp hq with rfl | hq
          · exact lt_of_le_of_lt (hmin x (List.mem_cons_self x xs)) hx
          · exact hpre q hq
        · intro q hq
          rw [hfold]
          rcases List.mem_cons.mp hq with rfl | hq
          · exact le_of_lt (lt_of_le_of_lt (hmin x (List.mem_cons_self x xs)) hx)
          · exact hmin q hq
      · obtain ⟨pre, post, heq, hpre, hmin⟩ := ih init
        have hfold : (x :: xs).foldl (fun acc q => if q.2 < acc.2 then q else acc) init =
            xs.foldl (fun acc q => if q.2 < acc.2 then q else acc) init := by
          simp [List.foldl_cons, if_neg hx]
        cases pre with
        | nil =>
            simp only [List.nil_append] at heq
            have hr : xs.foldl (fun acc q => if q.2 < acc.2 then q else acc) init = init :=
              (List.cons.injEq _ _ _ _ ▸ heq).1.symm
            refine ⟨[], x :: xs, ?_, by simp, ?_⟩
            · rw [hfold, hr, List.nil_append]
            · intro q hq
              rw [hfold, hr]
              rcases List.mem_cons.mp hq with rfl | hq
              · exact le_refl _
              · rcases List.mem_cons.mp hq with rfl | hq
                · exact not_lt.mp hx
                · have := hmin q (List.mem_cons_of_mem init hq)
                  rw [hr] at this
                  exact this
        | cons p pre2 =>
            rw [List.cons_append] at heq
            have hp : p = init := (List.cons.injEq _ _ _ _ ▸ heq).1.symm
            have htail : xs = pre2 ++
                (xs.foldl (fun acc q => if q.2 < acc.2 then q else acc) init) :: post :=
              (List.cons.injEq _ _ _ _ ▸ heq).2
            have hrinit : (xs.foldl (fun acc q => if q.2 < acc.2 then q else acc) init).2 <
                init.2 := by
              have := hpre p (List.mem_cons_self p pre2)
              rw [hp] at this
              exact this
            refine ⟨init :: x :: pre2, post, ?_, ?_, ?_⟩
            · rw [hfold]
              conv_lhs => rw [htail]
              simp
            · intro q hq
              rw [hfold]
              rcases List.mem_cons.mp hq with rfl | hq
              · exact hrinit
              · rcases List.mem_cons.mp hq with rfl | hq
                · exact lt_of_lt_of_le hrinit (not_lt.mp hx)
                · exact hpre q (List.mem_cons_of_mem p hq)
            · intro q hq
              rw [hfold]
              rcases List.mem_cons.mp hq with rfl | hq
              · exact le_of_lt hrinit
              · rcases List.mem_cons.mp hq with rfl | hq
                · exact le_of_lt (lt_of_lt_of_le hrinit (not_lt.mp hx))
                · have := hmin q (List.mem_cons_of_mem init hq)
                  exact this

/-- C3: `find_best_carrier` of an empty mapping selects nothing; of a
non-empty mapping it returns a pair attaining the minimum of all collected
charges, with exact ties resolved in favour of the first-encountered
carrier (everything before the winner is strictly larger); on
`{A: 220.32, B: 199.00, C: 250.00}` it returns `(B, 199.00)`; and in
`_build_shipment_updates` a shipment with a found best charge has
`savings_vs_actual = max(0, actualCharge - bestCharge)` (stated for the
value space of charges, `0 ≤ bestCharge`, or for a positive actual). -/
theorem claim_C3_best_and_savings :
    (find_best_carrier [] = (none, none)) ∧
    (∀ (charges : List (String × ℚ)) (c : String) (m : ℚ),
      find_best_carrier charges = (some c, some m) →
      (c, m) ∈ charges ∧ (∀ p ∈ charges, m ≤ p.2) ∧
      ∃ pre post, charges = pre ++ (c, m) :: post ∧ ∀ p ∈ pre, m < p.2) ∧
    (find_best_carrier [("A", 22032/100), ("B", 199), ("C", 250)] = (some "B", some 199)) ∧
    (find_best_carrier [("A", 100), ("B", 100)] = (some "A", some 100)) ∧
    (∀ (columns : List CarrierColumn) (idx : ℕ) (rec : ShipmentRecord) (b : ℚ),
      (updateForRecord columns idx rec).best_charge = some b →
      0 ≤ b ∨ 0 < rec.actual_charge.getD 0 →
      (updateForRecord columns idx rec).savings_vs_actual =
        max 0 (rec.actual_charge.getD 0 - b)) := by
  refine ⟨rfl, ?_, ?_, ?_, ?_⟩
  · intro charges c m h
    cases charges with
    | nil => simp [find_best_carrier] at h
    | cons ch rest =>
        obtain ⟨pre, post, heq, hpre, hmin⟩ := pyMinFold_spec rest ch
        simp only [find_best_carrier, Prod.mk.injEq, Option.some.injEq] at h
        have hbest : rest.foldl (fun acc x => if x.2 < acc.2 then x else acc) ch = (c, m) := by
          rcases h with ⟨h1, h2⟩
          exact Prod.ext h1 h2
        rw [hbest] at heq hpre hmin
        refine ⟨?_, ?_, pre, post, heq, hpre⟩
        · rw [heq]
          exact List.mem_append_right pre (List.mem_cons_self _ _)
        · exact hmin
  · norm_num [find_best_carrier, List.foldl]
  · norm_num [find_best_carrier, List.foldl]
  · intro columns idx rec b hb hdisj
    cases hbest : bestOfRow (rowOf columns idx) with
    | none => simp [updateForRecord, hbest] at hb
    | some bb =>
        simp only [updateForRecord, hbest] at hb ⊢
        have hbq : quantize4 bb.2 = b := by
          simpa using hb
        rw [hbq]
        set a := rec.actual_charge.getD 0 with ha
        by_cases hc : 0 < a ∧ 0 < a - b
        · rw [if_pos hc]
          exact (max_eq_right hc.2.le).symm
        · rw [if_neg hc]
          have hdle : a - b ≤ 0 := by
            rcases hdisj with hb0 | ha0
            · by_contra hgt
              push_neg at hgt
              exact hc ⟨lt_of_lt_of_le hgt (by linarith), hgt⟩
            · rcases not_and_or.mp hc with h1 | h2
              · exact absurd ha0 h1
              · exact not_lt.mp h2
          exact (max_eq_left hdle).symm

/-- C3 witness: the savings conjunct of `claim_C3_best_and_savings` at a
concrete record (actual 500) and one carrier column (charge 100). -/
theorem claim_C3_witness :
    (updateForRecord c3Columns 0 c3Record).savings_vs_actual =
      max 0 (c3Record.actual_charge.getD 0 - 100) :=
  claim_C3_best_and_savings.2.2.2.2 c3Columns 0 c3Record 100
    (by
      have hq : quantize4 (100:ℚ) = 100 :=
        (quantize4_eq_of_mul_eq _ 1000000 (by norm_num)).trans (by norm_num)
      simp [updateForRecord, c3Columns, c3Record, rowOf, bestOfRow, hq])
    (Or.inl (by norm_num))

end ThreePL

namespace ThreePL

/-! ## C4 — run-level accumulation (corrected) -/

/-- C4 counterexample: a shipment whose actual charge is absent (so it has
no positive actual charge) but for which a best charge was found still adds
its best charge (100) to the best-charge total and still increments the
rerated counter — refuting the claim that such shipments contribute to none
of the three run-level aggregates. -/
theorem claim_C4_counterexample :
    c4Record.actual_charge = none ∧
    (buildShipmentUpdates c4Columns [c4Record]).best_charge_total = 100 ∧
    (buildShipmentUpdates c4Columns [c4Record]).rerated_count = 1 ∧
    (buildShipmentUpdates c4Columns [c4Record]).carrier_savings_total = 0 ∧
    ¬ ((buildShipmentUpdates c4Columns [c4Record]).best_charge_total = 0 ∧
       (buildShipmentUpdates c4Columns [c4Record]).rerated_count = 0) := by
  have hq : quantize4 (100:ℚ) = 100 :=
    (quantize4_eq_of_mul_eq _ 1000000 (by norm_num)).trans (by norm_num)
  refine ⟨rfl, ?_, ?_, ?_, ?_⟩ <;>
    norm_num [buildShipmentUpdates, buildStep, updateForRecord, rowOf, bestOfRow,
      expectedOfRow, dictInsert, dictGet, c4Columns, c4Record, List.enum,
      List.enumFrom, hq]

/-- C4 amended: per rerate step, the best-charge total and the
rerated-shipment counter accumulate exactly when a best charge was found,
regardless of the actual charge; the savings total accumulates the
shipment's savings, which are zero unless the shipment had a positive
actual charge. -/
theorem claim_C4_amended_accumulation :
    (∀ (columns : List CarrierColumn) (acc : BuildAcc) (idx : ℕ) (rec : ShipmentRecord),
      (updateForRecord columns idx rec).best_charge = none →
      (buildStep columns acc (idx, rec)).carrier_savings_total = acc.carrier_savings_total ∧
      (buildStep columns acc (idx, rec)).best_charge_total = acc.best_charge_total ∧
      (buildStep columns acc (idx, rec)).rerated_count = acc.rerated_count) ∧
    (∀ (columns : List CarrierColumn) (acc : BuildAcc) (idx : ℕ) (rec : ShipmentRecord) (b : ℚ),
      (updateForRecord columns idx rec).best_charge = some b →
      (buildStep columns acc (idx, rec)).best_charge_total = acc.best_charge_total + b ∧
      (buildStep columns acc (idx, rec)).rerated_count = acc.rerated_count + 1 ∧
      (buildStep columns acc (idx, rec)).carrier_savings_total =
        acc.carrier_savings_total + (updateForRecord columns idx rec).savings_vs_actual) ∧
    (∀ (columns : List CarrierColumn) (idx : ℕ) (rec : ShipmentRecord),
      rec.actual_charge.getD 0 ≤ 0 →
      (updateForRecord columns idx rec).savings_vs_actual = 0) := by
  refine ⟨?_, ?_, ?_⟩
  · intro columns acc idx rec h
    have hs : (updateForRecord columns idx rec).savings_vs_actual = 0 := by
      cases hbest : bestOfRow (rowOf columns idx) with
      | none => simp [updateForRecord, hbest]
      | some bb => simp [updateForRecord, hbest] at h
    simp [buildStep, h, hs]
  · intro columns acc idx rec b h
    simp [buildStep, h]
  · intro columns idx rec h
    cases hbest : bestOfRow (rowOf columns idx) with
    | none => simp [updateForRecord, hbest]
    | some bb =>
        simp only [updateForRecord, hbest]
        rw [if_neg]
        intro hcon
        exact absurd hcon.1 (not_lt.mpr h)

/-- C4 witness: the best-found conjunct of `claim_C4_amended_accumulation`
at a concrete record with a found best charge of 100. -/
theorem claim_C4_witness :
    (buildStep c4Columns ⟨[], 0, 0, 0⟩ (0, c4Record)).best_charge_total = 0 + 100 ∧
    (buildStep c4Columns ⟨[], 0, 0, 0⟩ (0, c4Record)).rerated_count = 0 + 1 ∧
    (buildStep c4Columns ⟨[], 0, 0, 0⟩ (0, c4Record)).carrier_savings_total =
      0 + (updateForRecord c4Columns 0 c4Record).savings_vs_actual :=
  claim_C4_amended_accumulation.2.1 c4Columns ⟨[], 0, 0, 0⟩ 0 c4Record 100
    (by
      have hq : quantize4 (100:ℚ) = 100 :=
        (quantize4_eq_of_mul_eq _ 1000000 (by norm_num)).trans (by norm_num)
      simp [updateForRecord, c4Columns, c4Record, rowOf, bestOfRow, hq])

end ThreePL

namespace ThreePL

/-! ## C5 — lane lookup (corrected) -/

/-- C5 amended: `find_lane` returns the lane indexed under the normalized
exact (city, province) pair when one exists, otherwise the lane indexed
under the normalized province alone; a destination province that is absent,
empty, or whitespace-only (normalizing to the empty key) never matches any
lane — even one indexed under the empty province key — and a city that is
empty or whitespace-only skips the exact-pair lookup. -/
theorem claim_C5_find_lane :
    (∀ (e : TariffCacheEntry) (city : Option String), e.find_lane city none = none) ∧
    (∀ (e : TariffCacheEntry) (city : Option String), e.find_lane city (some "") = none) ∧
    (∀ (e : TariffCacheEntry) (city : Option String) (p : String),
      pyStrip (pyUpper p) = "" → e.find_lane city (some p) = none) ∧
    (∀ (e : TariffCacheEntry) (c p : String) (lane : TariffLaneCache),
      pyStrip (pyUpper p) ≠ "" → c ≠ "" → pyStrip (pyUpper c) ≠ "" →
      dictGet (pyStrip (pyUpper c), pyStrip (pyUpper p)) e.lanes_by_city = some lane →
      e.find_lane (some c) (some p) = some lane) ∧
    (∀ (e : TariffCacheEntry) (c p : String),
      pyStrip (pyUpper p) ≠ "" → c ≠ "" → pyStrip (pyUpper c) ≠ "" →
      dictGet (pyStrip (pyUpper c), pyStrip (pyUpper p)) e.lanes_by_city = none →
      e.find_lane (some c) (some p) = dictGet (pyStrip (pyUpper p)) e.lanes_by_province) ∧
    (∀ (e : TariffCacheEntry) (p : String),
      pyStrip (pyUpper p) ≠ "" →
      e.find_lane none (some p) = dictGet (pyStrip (pyUpper p)) e.lanes_by_province) ∧
    (∀ (e : TariffCacheEntry) (c p : String),
      pyStrip (pyUpper p) ≠ "" → (c = "" ∨ pyStrip (pyUpper c) = "") →
      e.find_lane (some c) (some p) = dictGet (pyStrip (pyUpper p)) e.lanes_by_province) := by
  refine ⟨?_, ?_, ?_, ?_, ?_, ?_, ?_⟩
  · intro e city; rfl
  · intro e city; simp [TariffCacheEntry.find_lane, pyTruthy]
  · intro e city p hp
    by_cases hpe : p = ""
    · subst hpe; simp [TariffCacheEntry.find_lane, pyTruthy]
    · cases city with
      | none => simp [TariffCacheEntry.find_lane, pyTruthy, hpe, hp]
      | some c =>
          by_cases hce : c = ""
          · subst hce; simp [TariffCacheEntry.find_lane, pyTruthy, hpe, hp]
          · simp [TariffCacheEntry.find_lane, pyTruthy, hpe, hce, hp]
  · intro e c p lane hpn hce hcn hget
    have hpe : p ≠ "" := by
      intro h; subst h; exact hpn rfl
    simp [TariffCacheEntry.find_lane, pyTruthy, hpe, hce, hpn, hcn, hget]
  · intro e c p hpn hce hcn hget
    have hpe : p ≠ "" := by
      intro h; subst h; exact hpn rfl
    simp [TariffCacheEntry.find_lane, pyTruthy, hpe, hce, hpn, hcn, hget]
  · intro e p hpn
    have hpe : p ≠ "" := by
      intro h; subst h; exact hpn rfl
    simp [TariffCacheEntry.find_lane, pyTruthy, hpe, hpn]
  · intro e c p hpn hcity
    have hpe : p ≠ "" := by
      intro h; subst h; exact hpn rfl
    rcases hcity with rfl | hcn
    · simp [TariffCacheEntry.find_lane, pyTruthy, hpe, hpn]
    · by_cases hce : c = ""
      · subst hce; simp [TariffCacheEntry.find_lane, pyTruthy, hpe, hpn]
      · simp [TariffCacheEntry.find_lane, pyTruthy, hpe, hce, hcn, hpn]

/-- C5 counterexample: the destination province `" "` is present (truthy,
not missing) and a lane is indexed under its normalized province key `""`
while no city pair matches, yet `find_lane` returns no lane — refuting the
claim's "otherwise the lane indexed under the province alone when one
exists". -/
theorem claim_C5_counterexample :
    pyTruthy (some " ") = true ∧
    dictGet (pyStrip (pyUpper " ")) c5WsEntry.lanes_by_province = some c5Lane ∧
    c5WsEntry.lanes_by_city = [] ∧
    c5WsEntry.find_lane (some "X") (some " ") = none :=
  ⟨rfl, rfl, rfl, rfl⟩

/-- C5 witness: the exact-pair conjunct of `claim_C5_find_lane` at a
concrete entry indexing city ("X", "ON"). -/
theorem claim_C5_witness :
    c5CityEntry.find_lane (some "X") (some "ON") = some c5Lane :=
  claim_C5_find_lane.2.2.2.1 c5CityEntry "X" "ON" c5Lane
    (by decide) (by decide) (by decide) rfl

end ThreePL

namespace ThreePL

/-! ## C6 — rerate pipeline edge behaviour -/

/-- C6: a run with zero shipments returns a fully empty result (no error);
a run with at least one shipment but an empty resolved tariff set fails
with the "no tariffs available" error before producing any per-shipment
results. -/
theorem claim_C6_pipeline_edges :
    (∀ entries : List TariffCacheEntry,
      runVectorizedRerate [] entries = Except.ok ⟨[], 0, 0, 0, 0, [], 0⟩) ∧
    (∀ (records : List ShipmentRecord) (entries : List TariffCacheEntry),
      records ≠ [] → entries = [] →
      runVectorizedRerate records entries =
        Except.error "No tariffs available for re-rating") := by
  refine ⟨?_, ?_⟩
  · intro entries; rfl
  · intro records entries hr he
    subst he
    cases records with
    | nil => exact absurd rfl hr
    | cons r rs => rfl

/-- C6 witness: the error conjunct of `claim_C6_pipeline_edges` at one
shipment record and an empty tariff set. -/
theorem claim_C6_witness :
    runVectorizedRerate [dummyRecord] [] =
      Except.error "No tariffs available for re-rating" :=
  claim_C6_pipeline_edges.2 [dummyRecord] [] (by simp) rfl

/-! ## C7 — match status -/

lemma buildFold_updates (columns : List CarrierColumn) :
    ∀ (l : List (ℕ × ShipmentRecord)) (acc : BuildAcc),
    (l.foldl (buildStep columns) acc).updates =
      acc.updates ++ l.map (fun p => updateForRecord columns p.1 p.2) := by
  intro l
  induction l with
  | nil => intro acc; simp
  | cons p rest ih =>
      intro acc
      rw [List.foldl_cons, ih, List.map_cons]
      simp [buildStep]

lemma buildShipmentUpdates_updates (columns : List CarrierColumn)
    (records : List ShipmentRecord) (h : ¬ columns.isEmpty) :
    (buildShipmentUpdates columns records).updates =
      records.enum.map (fun p => updateForRecord columns p.1 p.2) := by
  rw [buildShipmentUpdates, if_neg h, buildFold_updates]
  rfl

lemma bestFold_isSome (row : List (String × String × Option ℚ)) :
    ∀ (acc : Option (String × ℚ)), acc.isSome →
    (row.foldl
      (fun acc t =>
        match t.2.2 with
        | none => acc
        | some v =>
            match acc with
            | none => some (t.1, v)
            | some b => if v < b.2 then some (t.1, v) else some b)
      acc).isSome := by
  induction row with
  | nil => intro acc h; exact h
  | cons t rest ih =>
      intro acc h
      rw [List.foldl_cons]
      cases hv : t.2.2 with
      | none => simpa [hv] using ih acc h
      | some v =>
          cases acc with
          | none => simp at h
          | some b =>
              simp only [hv]
              exact ih _ (by by_cases hlt : v < b.2 <;> simp [hlt])

lemma bestOfRow_eq_none_iff (row : List (String × String × Option ℚ)) :
    bestOfRow row = none ↔ ∀ t ∈ row, t.2.2 = none := by
  rw [bestOfRow]
  induction row with
  | nil => simp
  | cons t rest ih =>
      rw [List.foldl_cons]
      cases hv : t.2.2 with
      | none =>
          rw [ih]
          constructor
          · intro h q hq
            rcases List.mem_cons.mp hq with rfl | hq
            · exact hv
            · exact h q hq
          · intro h q hq
            exact h q (List.mem_cons_of_mem t hq)
      | some v =>
          constructor
          · intro h
            have := bestFold_isSome rest (some (t.1, v)) rfl
            rw [h] at this
            simp at this
          · intro h
            have := h t (List.mem_cons_self t rest)
            rw [hv] at this
            simp at this

lemma expectedFold_const (row : List (String × String × Option ℚ))
    (h : ∀ t ∈ row, t.2.2 = none) :
    ∀ acc : List (String × ℚ),
    (row.foldl
      (fun acc t =>
        match t.2.2 with
        | none => acc
        | some v => dictInsert acc t.2.1 (quantize2 v))
      acc) = acc := by
  induction row with
  | nil => intro acc; rfl
  | cons t rest ih =>
      intro acc
      rw [List.foldl_cons]
      have ht := h t (List.mem_cons_self t rest)
      rw [ht]
      exact ih (fun q hq => h q (List.mem_cons_of_mem t hq)) acc

lemma expectedOfRow_eq_nil (row : List (String × String × Option ℚ))
    (h : ∀ t ∈ row, t.2.2 = none) : expectedOfRow row = [] :=
  expectedFold_const row h []

lemma columnCharge_eq_none_of_no_lane (e : TariffCacheEntry) (rec : ShipmentRecord)
    (h : e.find_lane rec.dest_city rec.dest_province = none) :
    columnCharge e rec = none := by
  rw [columnCharge]
  by_cases ho : rec.origin_key ≠ pyNormalize (some e.origin_dc)
  · rw [if_pos ho]
  · rw [if_neg ho, h]

/-- C7: every Rating Update produced by `_build_shipment_updates` carries
status `MATCHED` or `NO_LANE` and never `NO_TARIFF` (the `NO_TARIFF` branch
sits behind the early return on an empty column set, which yields no
updates at all); the status is `MATCHED` exactly when at least one carrier
produced a charge; otherwise it is `NO_LANE` with a note naming the
unmatched destination; and a shipment for which every candidate tariff
finds no lane gets `NO_LANE` and an empty expected-charge mapping. -/
theorem claim_C7_match_status :
    (∀ (columns : List CarrierColumn) (records : List ShipmentRecord)
       (u : ShipmentRatingUpdate),
      u ∈ (buildShipmentUpdates columns records).updates →
      u.tariff_match_status ≠ "NO_TARIFF" ∧
      (u.tariff_match_status = "MATCHED" ∨ u.tariff_match_status = "NO_LANE")) ∧
    (∀ (columns : List CarrierColumn) (idx : ℕ) (rec : ShipmentRecord),
      columns ≠ [] →
      ((updateForRecord columns idx rec).tariff_match_status = "MATCHED" ↔
        ∃ t ∈ rowOf columns idx, (t.2.2).isSome)) ∧
    (∀ (columns : List CarrierColumn) (idx : ℕ) (rec : ShipmentRecord),
      columns ≠ [] → bestOfRow (rowOf columns idx) = none →
      (updateForRecord columns idx rec).tariff_match_status = "NO_LANE" ∧
      (updateForRecord columns idx rec).tariff_match_notes =
        some ("No lane found for " ++ pyShow rec.dest_city ++ "/" ++
          pyShow rec.dest_province)) ∧
    (∀ (records : List ShipmentRecord) (entries : List TariffCacheEntry)
       (idx : ℕ) (rec : ShipmentRecord),
      entries ≠ [] → records.get? idx = some rec →
      (∀ e ∈ entries, e.find_lane rec.dest_city rec.dest_province = none) →
      (updateForRecord (computeCarrierColumns records entries) idx
          rec).tariff_match_status = "NO_LANE" ∧
      (updateForRecord (computeCarrierColumns records entries) idx
          rec).expected_charge_per_carrier = []) := by
  have hstatus : ∀ (columns : List CarrierColumn) (idx : ℕ) (rec : ShipmentRecord),
      columns ≠ [] → bestOfRow (rowOf columns idx) = none →
      (updateForRecord columns idx rec).tariff_match_status = "NO_LANE" ∧
      (updateForRecord columns idx rec).tariff_match_notes =
        some ("No lane found for " ++ pyShow rec.dest_city ++ "/" ++
          pyShow rec.dest_province) := by
    intro columns idx rec hc hbest
    have hemp : columns.isEmpty = false := by
      cases columns with
      | nil => exact absurd rfl hc
      | cons x xs => rfl
    constructor <;> simp [updateForRecord, hbest, hemp]
  refine ⟨?_, ?_, hstatus, ?_⟩
  · intro columns records u hu
    by_cases hc : columns.isEmpty
    · rw [buildShipmentUpdates, if_pos hc] at hu
      simp at hu
    · rw [buildShipmentUpdates_updates columns records hc] at hu
      obtain ⟨p, _, rfl⟩ := List.mem_map.mp hu
      cases hbest : bestOfRow (rowOf columns p.1) with
      | some bb =>
          constructor <;> simp [updateForRecord, hbest]
      | none =>
          have hcf : columns.isEmpty = false := by
            cases columns with
            | nil => exact absurd rfl hc
            | cons x xs => rfl
          constructor <;> simp [updateForRecord, hbest, hcf]
  · intro columns idx rec hc
    cases hbest : bestOfRow (rowOf columns idx) with
    | some bb =>
        simp only [updateForRecord, hbest]
        constructor
        · intro _
          by_contra hall
          push_neg at hall
          have : bestOfRow (rowOf columns idx) = none := by
            rw [bestOfRow_eq_none_iff]
            intro t ht
            have := hall t ht
            cases h : t.2.2 with
            | none => rfl
            | some v => rw [h] at this; simp at this
          rw [this] at hbest
          exact Option.noConfusion hbest
        · intro _; trivial
    | none =>
        have h1 := hstatus columns idx rec hc hbest
        rw [h1.1]
        constructor
        · intro h; exact absurd h (by decide)
        · intro ⟨t, ht, hsome⟩
          have := (bestOfRow_eq_none_iff _).mp hbest t ht
          rw [this] at hsome
          simp at hsome
  · intro records entries idx rec hne hget hlanes
    have hcols : computeCarrierColumns records entries ≠ [] := by
      cases entries with
      | nil => exact absurd rfl hne
      | cons e es => simp [computeCarrierColumns]
    have hrow : ∀ t ∈ rowOf (computeCarrierColumns records entries) idx, t.2.2 = none := by
      intro t ht
      rw [rowOf, List.mem_map] at ht
      obtain ⟨col, hcol, rfl⟩ := ht
      rw [computeCarrierColumns, List.mem_map] at hcol
      obtain ⟨e, he, rfl⟩ := hcol
      simp only
      have hval : (records.map (columnCharge e)).get? idx = some (columnCharge e rec) := by
        rw [List.get?_map, hget]
        rfl
      have : (records.map (columnCharge e)).getD idx none = columnCharge e rec := by
        rw [List.getD_eq_getElem?_getD, ← List.get?_eq_getElem?, hval]
        rfl
      rw [this]
      exact columnCharge_eq_none_of_no_lane e rec (hlanes e he)
    have hbest : bestOfRow (rowOf (computeCarrierColumns records entries) idx) = none :=
      (bestOfRow_eq_none_iff _).mpr hrow
    refine ⟨(hstatus _ idx rec hcols hbest).1, ?_⟩
    cases hb : bestOfRow (rowOf (computeCarrierColumns records entries) idx) with
    | some bb => rw [hb] at hbest; exact Option.noConfusion hbest
    | none =>
        simp only [updateForRecord, hb]
        exact expectedOfRow_eq_nil _ hrow

/-- C7 witness: the no-lane conjunct of `claim_C7_match_status` at a
shipment whose destination province has no lane in the only tariff. -/
theorem claim_C7_witness :
    (updateForRecord (computeCarrierColumns [c7Record] [c7Entry]) 0
        c7Record).tariff_match_status = "NO_LANE" ∧
    (updateForRecord (computeCarrierColumns [c7Record] [c7Entry]) 0
        c7Record).expected_charge_per_carrier = [] :=
  claim_C7_match_status.2.2.2 [c7Record] [c7Entry] 0 c7Record
    (by simp) rfl
    (by
      intro e he
      simp only [List.mem_singleton] at he
      subst he
      rfl)

end ThreePL

namespace ThreePL

/-! ## C8 — weekly consolidation exclusion -/

lemma addToBuckets_mem {bs : List (GroupKey × List ℕ)} {k : GroupKey} {i : ℕ}
    {b : GroupKey × List ℕ} (h : b ∈ addToBuckets bs k i) :
    b ∈ bs ∨ (∃ old, (k, old) ∈ bs ∧ b = (k, old ++ [i])) ∨ b = (k, [i]) := by
  rw [addToBuckets] at h
  by_cases hany : bs.any (fun b => b.1 = k)
  · rw [if_pos hany] at h
    obtain ⟨b0, hb0, heq⟩ := List.mem_map.mp h
    by_cases hk : b0.1 = k
    · rw [if_pos hk] at heq
      rw [hk] at heq
      right; left
      refine ⟨b0.2, ?_, heq.symm⟩
      rw [← hk]
      exact hb0
    · rw [if_neg hk] at heq
      left
      rw [← heq]
      exact hb0
  · rw [if_neg hany] at h
    rcases List.mem_append.mp h with hb | hb
    · left; exact hb
    · right; right
      simpa using hb

lemma groupFold_sound (weekly : Bool) (records : List ShipmentRecord) :
    ∀ (ps : List (ℕ × ShipmentRecord)) (acc : List (GroupKey × List ℕ)),
    (∀ p ∈ ps, records.get? p.1 = some p.2) →
    (∀ b ∈ acc, ∀ i ∈ b.2, ∃ rec, records.get? i = some rec ∧
      recKey weekly rec = some b.1) →
    ∀ b ∈ ps.foldl
      (fun bs p =>
        match recKey weekly p.2 with
        | none => bs
        | some k => addToBuckets bs k p.1) acc,
    ∀ i ∈ b.2, ∃ rec, records.get? i = some rec ∧ recKey weekly rec = some b.1 := by
  intro ps
  induction ps with
  | nil => intro acc _ hacc; exact hacc
  | cons p rest ih =>
      intro acc hmem hacc
      rw [List.foldl_cons]
      have hp := hmem p (List.mem_cons_self p rest)
      have hrest : ∀ q ∈ rest, records.get? q.1 = some q.2 :=
        fun q hq => hmem q (List.mem_cons_of_mem p hq)
      cases hk : recKey weekly p.2 with
      | none => exact ih _ hrest (by simpa [hk] using hacc)
      | some k =>
          refine ih _ hrest ?_
          simp only [hk]
          intro b hb i hi
          rcases addToBuckets_mem hb with hold | ⟨old, holdmem, rfl⟩ | rfl
          · exact hacc b hold i hi
          · rcases List.mem_append.mp hi with hiold | hinew
            · obtain ⟨rec, h1, h2⟩ := hacc (k, old) holdmem i hiold
              exact ⟨rec, h1, h2⟩
            · have : i = p.1 := by simpa using hinew
              subst this
              exact ⟨p.2, hp, hk⟩
          · have : i = p.1 := by simpa using hi
            subst this
            exact ⟨p.2, hp, hk⟩

lemma groupBuckets_sound (weekly : Bool) (records : List ShipmentRecord) :
    ∀ b ∈ groupBuckets weekly records, ∀ i ∈ b.2,
      ∃ rec, records.get? i = some rec ∧ recKey weekly rec = some b.1 := by
  apply groupFold_sound weekly records records.enum []
  · intro p hp
    have := List.mem_enum_iff_get?.mp hp
    exact this
  · intro b hb
    simp at hb

lemma recKey_weekly_inv {rec : ShipmentRecord} {k : GroupKey}
    (h : recKey true rec = some k) :
    ∃ d, rec.ship_date = some d ∧ rec.dest_province_key ≠ "" ∧ pyWeekday d ≤ 3 ∧
      k = (rec.origin_key, rec.dest_city_key, rec.dest_province_key,
        DateKey.week (weekMonday d)) := by
  rw [recKey] at h
  split at h
  · exact Option.noConfusion h
  · rename_i d hd
    by_cases hp : rec.dest_province_key = ""
    · rw [if_pos hp] at h; exact Option.noConfusion h
    · rw [if_neg hp, if_pos rfl] at h
      by_cases hm : isMonThu d
      · rw [if_pos hm] at h
        refine ⟨d, hd, hp, ?_, (Option.some.inj h).symm⟩
        simpa [isMonThu] using hm
      · rw [if_neg hm] at h; exact Option.noConfusion h

/-- C8: in the default weekly grouping mode, a shipment whose ship date
falls on Friday, Saturday or Sunday (weekday at least 4) is a member of no
consolidation group; every group member has a ship date and a destination
province key, ships Monday through Thursday, and its group is keyed by
(origin, destination city, destination province, ISO week). -/
theorem claim_C8_weekly_exclusion :
    (∀ (records : List ShipmentRecord) (i : ℕ) (rec : ShipmentRecord) (d : ℤ),
      records.get? i = some rec → rec.ship_date = some d → 4 ≤ pyWeekday d →
      ∀ b ∈ groupBuckets true records, i ∉ b.2) ∧
    (∀ (records : List ShipmentRecord) (b : GroupKey × List ℕ) (i : ℕ),
      b ∈ groupBuckets true records → i ∈ b.2 →
      ∃ rec d, records.get? i = some rec ∧ rec.ship_date = some d ∧
        rec.dest_province_key ≠ "" ∧ pyWeekday d ≤ 3 ∧
        b.1 = (rec.origin_key, rec.dest_city_key, rec.dest_province_key,
          DateKey.week (weekMonday d))) := by
  constructor
  · intro records i rec d hget hdate hfri b hb hi
    obtain ⟨rec2, hget2, hkey⟩ := groupBuckets_sound true records b hb i hi
    rw [hget] at hget2
    have hrec : rec2 = rec := (Option.some.inj hget2).symm
    subst hrec
    obtain ⟨d2, hd2, _, hmon, _⟩ := recKey_weekly_inv hkey
    rw [hdate] at hd2
    have : d2 = d := Option.some.inj hd2.symm
    subst this
    linarith
  · intro records b i hb hi
    obtain ⟨rec, hget, hkey⟩ := groupBuckets_sound true records b hb i hi
    obtain ⟨d, hd, hp, hmon, hk⟩ := recKey_weekly_inv hkey
    exact ⟨rec, d, hget, hd, hp, hmon, hk⟩

/-- C8 witness: two Monday/Tuesday shipments (days 4 and 5) form the only
weekly bucket while the Friday shipment (day 1, weekday 4) at index 2 is
excluded from it by `claim_C8_weekly_exclusion`. -/
theorem claim_C8_witness :
    groupBuckets true c8Records = [(c8Key, [0, 1])] ∧ (2 : ℕ) ∉ [0, 1] := by
  have hg : groupBuckets true c8Records = [(c8Key, [0, 1])] := by decide
  refine ⟨hg, ?_⟩
  have h2 := claim_C8_weekly_exclusion.1 c8Records 2 c8RecF 1 rfl rfl (by decide)
    (c8Key, [0, 1]) (by rw [hg]; exact List.mem_singleton_self _)
  exact h2

end ThreePL

namespace ThreePL

/-! ## C9 — consolidation output contract -/

lemma opportunityOfBucket_inv {records : List ShipmentRecord}
    {updates : List ShipmentRatingUpdate} {entries : List TariffCacheEntry}
    {kb : GroupKey × List ℕ} {o : ConsolidationOpportunity}
    (h : opportunityOfBucket records updates entries true kb = some o) :
    2 ≤ kb.2.length ∧ o.shipment_count = kb.2.length ∧
    o.incremental_savings = o.individual_best_sum - o.consolidated_charge ∧
    0 < o.incremental_savings ∧
    (∀ m, kb.1.2.2.2 = DateKey.week m →
      o.ship_date = (records.getD (kb.2.headD 0) dummyRecord).ship_date.getD 0 +
        (3 - pyWeekday ((records.getD (kb.2.headD 0) dummyRecord).ship_date.getD 0)) % 7) := by
  simp only [opportunityOfBucket] at h
  by_cases h1 : kb.2.length < 2
  · rw [if_pos h1] at h
    exact Option.noConfusion h
  · rw [if_neg h1] at h
    rw [if_neg h1] at h
    cases hbc : (bestConsolidatedCharge kb.1.1
        (records.getD (kb.2.headD 0) dummyRecord).dest_city
        (records.getD (kb.2.headD 0) dummyRecord).dest_province
        (if List.foldl (fun s i => s + (records.getD i dummyRecord).weight.getD 0) 0 kb.2 ≠ 0 ∨
            List.foldl (fun s i => s + (records.getD i dummyRecord).dim_weight.getD 0) 0 kb.2 ≠ 0 then
          some (List.foldl (fun s i => s + (records.getD i dummyRecord).weight.getD 0) 0 kb.2 ⊔
            List.foldl (fun s i => s + (records.getD i dummyRecord).dim_weight.getD 0) 0 kb.2)
        else none)
        (some (List.foldl (fun s i => s + (records.getD i dummyRecord).pallets.getD 0) 0 kb.2))
        (some (List.foldl (fun s i => s + (records.getD i dummyRecord).weight.getD 0) 0 kb.2))
        entries).1 with
    | none =>
        simp only [hbc] at h
        exact Option.noConfusion h
    | some cc =>
        simp only [hbc] at h
        by_cases h3 : List.foldl
            (fun s i =>
              match (updates.getD i dummyUpdate).best_charge with
              | some b => s + b
              | none => s + (records.getD i dummyRecord).actual_charge.getD 0)
            0 kb.2 - cc ≤ 0
        · rw [if_pos h3] at h
          exact Option.noConfusion h
        · rw [if_neg h3] at h
          have ho := Option.some.inj h
          subst ho
          refine ⟨by omega, rfl, rfl, lt_of_not_le h3, ?_⟩
          intro m hm
          simp [hm]

lemma sortedOpps_pairwise (l : List ConsolidationOpportunity) :
    List.Pairwise
      (fun a b : ConsolidationOpportunity =>
        b.incremental_savings ≤ a.incremental_savings)
      (l.mergeSort
        (fun a b => decide (b.incremental_savings ≤ a.incremental_savings))) := by
  have h := @List.sorted_mergeSort ConsolidationOpportunity
    (fun a b : ConsolidationOpportunity =>
      decide (b.incremental_savings ≤ a.incremental_savings))
    (fun a b c hab hbc => by
      simp only [decide_eq_true_eq] at *
      exact le_trans hbc hab)
    (fun a b => by
      simp only [Bool.or_eq_true, decide_eq_true_eq]
      exact le_total (b.incremental_savings) (a.incremental_savings))
    l
  exact h.imp (fun hab => by simpa using hab)

/-- C9: every returned consolidation opportunity has at least 2 member
shipments, a found consolidated charge, and incremental savings equal to
`individualBestSum - consolidatedCharge` and strictly positive; the
returned list is sorted by incremental savings descending and has at most
15 entries; and in weekly mode each opportunity's representative date is
computed from the first member's ship date as
`d + (3 - weekday(d)) % 7` — the Thursday of that member's grouping week
(its weekday is 3 and its week's Monday is the member's week's Monday). -/
theorem claim_C9_consolidation_output :
    (∀ (records : List ShipmentRecord) (updates : List ShipmentRatingUpdate)
       (entries : List TariffCacheEntry) (o : ConsolidationOpportunity),
      o ∈ (computeConsolidationOpportunities records updates entries true).2.1 →
      2 ≤ o.shipment_count ∧
      o.incremental_savings = o.individual_best_sum - o.consolidated_charge ∧
      0 < o.incremental_savings) ∧
    (∀ (records : List ShipmentRecord) (updates : List ShipmentRatingUpdate)
       (entries : List TariffCacheEntry),
      (computeConsolidationOpportunities records updates entries true).2.1.length ≤ 15) ∧
    (∀ (records : List ShipmentRecord) (updates : List ShipmentRatingUpdate)
       (entries : List TariffCacheEntry),
      List.Pairwise
        (fun a b : ConsolidationOpportunity =>
          b.incremental_savings ≤ a.incremental_savings)
        (computeConsolidationOpportunities records updates entries true).2.1) ∧
    (∀ (records : List ShipmentRecord) (updates : List ShipmentRatingUpdate)
       (entries : List TariffCacheEntry) (o : ConsolidationOpportunity),
      o ∈ (computeConsolidationOpportunities records updates entries true).2.1 →
      ∃ kb, kb ∈ groupBuckets true records ∧
        opportunityOfBucket records updates entries true kb = some o ∧
        ∃ i rest rec d, kb.2 = i :: rest ∧ records.get? i = some rec ∧
          rec.ship_date = some d ∧ pyWeekday d ≤ 3 ∧
          o.ship_date = d + (3 - pyWeekday d) % 7 ∧
          pyWeekday o.ship_date = 3 ∧ weekMonday o.ship_date = weekMonday d) := by
  have hmem : ∀ (records : List ShipmentRecord) (updates : List ShipmentRatingUpdate)
      (entries : List TariffCacheEntry) (o : ConsolidationOpportunity),
      o ∈ (computeConsolidationOpportunities records updates entries true).2.1 →
      ∃ kb, kb ∈ groupBuckets true records ∧
        opportunityOfBucket records updates entries true kb = some o := by
    intro records updates entries o ho
    simp only [computeConsolidationOpportunities] at ho
    have ho2 := List.mem_of_mem_take ho
    rw [List.mem_mergeSort] at ho2
    exact List.mem_filterMap.mp ho2
  refine ⟨?_, ?_, ?_, ?_⟩
  · intro records updates entries o ho
    obtain ⟨kb, _, hop⟩ := hmem records updates entries o ho
    obtain ⟨hlen, hcount, hinc, hpos, _⟩ := opportunityOfBucket_inv hop
    exact ⟨hcount ▸ hlen, hinc, hpos⟩
  · intro records updates entries
    simp only [computeConsolidationOpportunities]
    rw [List.length_take]
    exact min_le_left _ _
  · intro records updates entries
    simp only [computeConsolidationOpportunities]
    exact (sortedOpps_pairwise _).sublist (List.take_sublist _ _)
  · intro records updates entries o ho
    obtain ⟨kb, hkb, hop⟩ := hmem records updates entries o ho
    obtain ⟨hlen, _, _, _, hdate⟩ := opportunityOfBucket_inv hop
    refine ⟨kb, hkb, hop, ?_⟩
    obtain ⟨i, rest, hcons⟩ : ∃ i rest, kb.2 = i :: rest := by
      cases hk : kb.2 with
      | nil => rw [hk] at hlen; simp at hlen
      | cons i rest => exact ⟨i, rest, rfl⟩
    have hi : i ∈ kb.2 := by rw [hcons]; exact List.mem_cons_self i rest
    obtain ⟨rec, hget, hkey⟩ := groupBuckets_sound true records kb hkb i hi
    obtain ⟨d, hd, _, hmon, hk1⟩ := recKey_weekly_inv hkey
    have hweek : kb.1.2.2.2 = DateKey.week (weekMonday d) := by
      rw [hk1]
    have hfd : (records.getD (kb.2.headD 0) dummyRecord).ship_date.getD 0 = d := by
      rw [hcons]
      simp only [List.headD_cons]
      have : records.getD i dummyRecord = rec := by
        rw [List.getD_eq_getElem?_getD, ← List.get?_eq_getElem?, hget]
        rfl
      rw [this, hd]
      rfl
    have hsd : o.ship_date = d + (3 - pyWeekday d) % 7 := by
      have := hdate (weekMonday d) hweek
      rw [hfd] at this
      exact this
    refine ⟨i, rest, rec, d, hcons, hget, hd, hmon, hsd, ?_, ?_⟩
    · rw [hsd]
      have h0 : 0 ≤ pyWeekday d := Int.emod_nonneg _ (by norm_num)
      simp only [pyWeekday] at *
      omega
    · rw [hsd]
      have h0 : 0 ≤ pyWeekday d := Int.emod_nonneg _ (by norm_num)
      simp only [pyWeekday, weekMonday] at *
      omega

end ThreePL

namespace ThreePL

/-- C9 witness: the discard-rules conjunct of
`claim_C9_consolidation_output` at a concrete two-shipment Thursday group
whose consolidated charge 30.60 beats the individual best sum 36.72. -/
theorem claim_C9_witness :
    2 ≤ c9Opp.shipment_count ∧
    c9Opp.incremental_savings = c9Opp.individual_best_sum - c9Opp.consolidated_charge ∧
    0 < c9Opp.incremental_savings :=
  claim_C9_consolidation_output.1 c9Records c9Updates [c9Entry] c9Opp
    (by
      rw [show (computeConsolidationOpportunities c9Records c9Updates [c9Entry] true).2.1
          = [c9Opp] from by with_unfolding_all rfl]
      exact List.mem_singleton_self _)
end ThreePL

namespace ThreePL

/-! ## C10 — skid rating ignores billed/dimensional weight -/

/-- C10: for a skid/spot tariff, the pipeline's per-shipment charge depends
only on the shipment's origin, destination, pallet count and scale weight —
two records differing only in billed/dimensional weight (and its derived
billable weight) get the same skid charge, because the pipeline passes only
pallets and scale weight to `rate_skid_spot_cached`; concretely, a record
whose billed weight (99999) far exceeds the 2000-lb-per-spot cap is still
charged, the cap being checked against the scale weight alone. -/
theorem claim_C10_skid_ignores_billed_weight :
    (∀ (entry : TariffCacheEntry) (rec1 rec2 : ShipmentRecord),
      entry.tariff_type = TariffType.SKID_SPOT →
      rec1.origin_dc = rec2.origin_dc →
      rec1.dest_city = rec2.dest_city →
      rec1.dest_province = rec2.dest_province →
      rec1.pallets = rec2.pallets →
      rec1.weight = rec2.weight →
      columnCharge entry rec1 = columnCharge entry rec2) ∧
    (∀ (entry : TariffCacheEntry) (rec : ShipmentRecord) (lane : TariffLaneCache),
      entry.tariff_type = TariffType.SKID_SPOT →
      rec.origin_key = pyNormalize (some entry.origin_dc) →
      entry.find_lane rec.dest_city rec.dest_province = some lane →
      columnCharge entry rec = rate_skid_spot_cached rec.pallets rec.weight lane) ∧
    (columnCharge c10Entry c10RecBig = some 153 ∧
     c10RecBig.dim_weight = some 99999 ∧
     c10RecBig.billable_weight = some 99999 ∧
     2000 * (skidSpots c10RecBig.pallets : ℚ) < 99999) := by
  refine ⟨?_, ?_, ?_, rfl, rfl, ?_⟩
  · intro entry rec1 rec2 ht h1 h2 h3 h4 h5
    have horig : rec1.origin_key = rec2.origin_key := by
      rw [ShipmentRecord.origin_key, ShipmentRecord.origin_key, h1]
    simp only [columnCharge, horig, h2, h3, h4, h5, ht]
  · intro entry rec lane ht horig hlane
    simp [columnCharge, horig, hlane, ht]
  · exact show columnCharge c10Entry c10RecBig = some 153 by with_unfolding_all rfl
  · have hs : skidSpots c10RecBig.pallets = 1 := by with_unfolding_all rfl
    rw [hs]
    norm_num

/-- C10 witness: the two-run conjunct of
`claim_C10_skid_ignores_billed_weight` at two records differing only in
billed/dimensional weight. -/
theorem claim_C10_witness :
    columnCharge c10Entry c10RecSmall = columnCharge c10Entry c10RecBig :=
  claim_C10_skid_ignores_billed_weight.1 c10Entry c10RecSmall c10RecBig
    rfl rfl rfl rfl rfl rfl

end ThreePL
